import Mathlib

/-
Verification of the vuegister core against its specification.

The development shallowly embeds the code of src/vuegister.js and
src/location.js. The markup tokenizer (htmlparser2) and the script
tokenizer (acorn) are third-party collaborators of the repository, so
they are represented by their observable outputs: a list of parse
events carrying the byte positions the callbacks read from the parser
(endIndex of an opening tag, startIndex of a closing tag), and a list
of script tokens carrying source locations. The handler logic wired
onto those callbacks, the Location class, generateMap and transpile
are translated directly from the source.
-/

namespace Vuegister

/-! ## Location (src/location.js) -/

/-- Positions of every line-feed character in the buffer, scanning from
position start; mirrors the indexOf loop in the Location constructor. -/
def newlineIndexesFrom : List Char → Nat → List Nat
  | [], _ => []
  | c :: cs, s =>
    if c = '\n' then s :: newlineIndexesFrom cs (s + 1)
    else newlineIndexesFrom cs (s + 1)

/-- The indexes table built by the Location constructor for a buffer. -/
def locIndexes (buf : List Char) : List Nat :=
  newlineIndexesFrom buf 0

/-- Location.getLine: returns the first position i in the table with
index less than or equal to the stored break offset, otherwise the
table length; translated from the for loop in src/location.js. -/
def getLineFrom : List Nat → Nat → Nat
  | [], _ => 0
  | j :: rest, index => if index ≤ j then 0 else getLineFrom rest index + 1

/-- Number of line breaks strictly before byte offset x of the buffer. -/
def breaksBefore (buf : List Char) (x : Nat) : Nat :=
  (buf.take x).count '\n'

/-- Number of line breaks at or before byte offset x of the buffer. -/
def breaksAtOrBefore (buf : List Char) (x : Nat) : Nat :=
  (buf.take (x + 1)).count '\n'

/-! ## JavaScript string.substring -/

/-- String.prototype.substring: clamps both arguments to the string
length and swaps them when the first exceeds the second. -/
def jsSubstring (s : List Char) (a b : Nat) : List Char :=
  let a' := min a s.length
  let b' := min b s.length
  let lo := min a' b'
  let hi := max a' b'
  (s.drop lo).take (hi - lo)

/-! ## Parser events

The extract function drives htmlparser2 through two callbacks. The
parser itself is an external collaborator; the spec describes the
events it delivers: an opening-tag event carrying the tag name, the
attribute map and the byte position of the closing bracket of the tag
(parser.endIndex, so content starts at endIndex + 1), and a
closing-tag event carrying the byte position of the opening bracket of
the closing tag (parser.startIndex). -/

inductive PEvent where
  | openTag (tag : String) (attrs : List (String × String)) (endIndex : Nat)
  | closeTag (tag : String) (startIndex : Nat)
deriving Repr, DecidableEq

/-- Byte position attached to a parse event. -/
def eventPos : PEvent → Nat
  | .openTag _ _ e => e
  | .closeTag _ s => s

/-! ## JavaScript dynamic values and numeric quirks -/

/-- Dynamic JavaScript values, as far as the argument checks of extract
can observe them. -/
inductive JsVal where
  | vstr (s : String)
  | varr (xs : List JsVal)
  | vnum (n : Int)
  | vbool (b : Bool)
  | vnull
  | vundef
deriving Repr

/-- JavaScript counter value: some n is an ordinary number, none stands
for the non-number results undefined and NaN, which behave identically
in the counter arithmetic of extract (increment and decrement keep
them non-numeric and they are falsy). -/
def JsNum := Option Int

/-- Adding one to a counter slot; undefined or NaN stays NaN. -/
def jsInc : Option Int → Option Int
  | some n => some (n + 1)
  | none => none

/-- Subtracting one from a counter slot; undefined or NaN stays NaN. -/
def jsDec : Option Int → Option Int
  | some n => some (n - 1)
  | none => none

/-- JavaScript truthiness of a counter slot: zero, undefined and NaN
are falsy, every other number is truthy. -/
def jsTruthy : Option Int → Bool
  | some n => n != 0
  | none => false

/-- Lookup in the tagsCounter object; a missing key reads as undefined. -/
def counterGet : List (String × Option Int) → String → Option Int
  | [], _ => none
  | (k, v) :: rest, t => if k = t then v else counterGet rest t

/-- Assignment to a key of the tagsCounter object. -/
def counterSet : List (String × Option Int) → String → Option Int → List (String × Option Int)
  | [], t, v => [(t, v)]
  | (k, w) :: rest, t, v =>
    if k = t then (t, v) :: rest else (k, w) :: counterSet rest t v

/-- The indexOf test of extract: tags.indexOf(tag) succeeds only on an
array element that is strictly equal to the string tag. -/
def tagsContains (xs : List JsVal) (t : String) : Bool :=
  xs.any fun v =>
    match v with
    | .vstr s => s = t
    | _ => false

/-- Presence test used as has(attrs, name) on a tag attribute object. -/
def hasAttr (attrs : List (String × String)) (name : String) : Bool :=
  attrs.any fun kv => kv.1 = name

/-! ## Sections and the extractor state -/

/-- One section object as created and mutated by the extract callbacks:
the object is created at an opening tag with its tag and attrs, and the
text and offset fields are written at each emitting closing tag. -/
structure SectObj where
  tag : String
  attrs : List (String × String)
  text : List Char
  offset : Nat
deriving Repr, DecidableEq

instance : Inhabited SectObj := ⟨⟨"", [], [], 0⟩⟩

/-- Read a heap cell; mirrors reading a JavaScript object reference. -/
def getAt : List SectObj → Nat → SectObj
  | [], _ => default
  | x :: _, 0 => x
  | _ :: xs, n + 1 => getAt xs n

/-- Write a heap cell in place. -/
def setAt : List SectObj → Nat → SectObj → List SectObj
  | [], _, _ => []
  | _ :: xs, 0, y => y :: xs
  | x :: xs, n + 1, y => x :: setAt xs n y

/-- Errors that abort extract: the two argument checks, and the
TypeError raised when the closing-tag callback evaluates
has(section.attrs, src) while section is still the initial empty
object, whose attrs field is undefined. -/
inductive ExtractErr where
  | typeErr (msg : String)
  | hasOfUndefined
deriving Repr, DecidableEq

/-- Mutable state of one extract call. The section objects created by
the opening-tag callback live in a little heap so that the aliasing of
the JavaScript section variable is preserved: sections.push stores a
reference, and a later mutation of the same object is visible through
every stored reference. cur is the heap id of the object currently
held by the section variable (none models the initial plain object
without an attrs field); pushed lists the heap ids in push order. -/
structure ExtractState where
  finded : List String
  counter : List (String × Option Int)
  heap : List SectObj
  cur : Option Nat
  sectStart : Nat
  pushed : List Nat
deriving Repr, DecidableEq

/-- Starting state of extract: no tag found, empty counter object,
sectStart zero, empty section list. -/
def initState : ExtractState := ⟨[], [], [], none, 0, []⟩

/-- One parser callback of extract, translated from the onopentag and
onclosetag handlers in src/vuegister.js. -/
def step (buf : List Char) (tags : List JsVal) (st : ExtractState) :
    PEvent → Except ExtractErr ExtractState
  | .openTag t attrs endIdx =>
    if tagsContains tags t then
      if st.finded.contains t then
        .ok { st with counter := counterSet st.counter t (jsInc (counterGet st.counter t)) }
      else
        .ok { st with
                finded := t :: st.finded,
                counter := counterSet st.counter t (some 1),
                heap := st.heap ++ [⟨t, attrs, [], 0⟩],
                cur := some st.heap.length,
                sectStart := endIdx + 1 }
    else .ok st
  | .closeTag t startIdx =>
    if tagsContains tags t then
      let c := jsDec (counterGet st.counter t)
      let st1 := { st with counter := counterSet st.counter t c }
      if jsTruthy c then .ok st1
      else
        match st1.cur with
        | none => .error .hasOfUndefined
        | some id =>
          let obj := getAt st1.heap id
          let obj1 : SectObj :=
            { obj with
                tag := t,
                text := jsSubstring buf st1.sectStart startIdx,
                offset := if hasAttr obj.attrs "src" then 0
                          else getLineFrom (locIndexes buf) st1.sectStart }
          .ok { st1 with heap := setAt st1.heap id obj1, pushed := st1.pushed ++ [id] }
    else .ok st

/-- Feeding the whole event stream through the callbacks. -/
def runLoop (buf : List Char) (tags : List JsVal) :
    ExtractState → List PEvent → Except ExtractErr ExtractState
  | st, [] => .ok st
  | st, e :: rest =>
    match step buf tags st e with
    | .ok st1 => runLoop buf tags st1 rest
    | .error err => .error err

/-- The sections array returned by extract: the pushed references,
each dereferenced to its final object value. -/
def runExtract (buf : List Char) (tags : List JsVal) (events : List PEvent) :
    Except ExtractErr (List SectObj) :=
  (runLoop buf tags initState events).map fun st =>
    st.pushed.map fun id => getAt st.heap id

/-- The public extract entry: the two argument checks from the head of
the function, then the parse driven by the event stream. -/
def extract (bufV tagsV : JsVal) (events : List PEvent) :
    Except ExtractErr (List SectObj) :=
  match bufV with
  | .vstr s =>
    match tagsV with
    | .varr xs => runExtract s.data xs events
    | _ => .error (.typeErr "Second argument must be an array.")
  | _ => .error (.typeErr "First argument must be a string.")

/-! ## Source map generation (generateMap) -/

/-- Start location of a token as reported by the acorn tokenizer with
locations enabled: 1-based line, 0-based column. -/
structure TokenPos where
  line : Nat
  column : Nat
deriving Repr, DecidableEq

/-- One token of the external script tokenizer; value is the literal
token value when acorn attaches one. -/
structure Token where
  start : TokenPos
  value : Option String
deriving Repr, DecidableEq

/-- One row of the generated source map. -/
structure MapEntry where
  source : String
  originalLine : Int
  originalColumn : Nat
  generatedLine : Nat
  generatedColumn : Nat
  name : Option String
deriving Repr, DecidableEq

/-- Errors raised by generateMap. -/
inductive MapError where
  | rangeErr (msg : String)
deriving Repr, DecidableEq

/-- The mapping added for one token: original line is the generated
line shifted by offset, columns coincide, source is the file id and
name is the token value. -/
def mkMapping (file : String) (offset : Int) (t : Token) : MapEntry :=
  ⟨file, (t.start.line : Int) + offset, t.start.column,
   t.start.line, t.start.column, t.value⟩

/-- generateMap from src/vuegister.js: rejects a non-positive offset
with a RangeError, otherwise adds one mapping per token of the
tokenized content, in scan order. The token list parameter stands for
the output of the external acorn tokenizer on the content. -/
def generateMap (tokens : List Token) (file : String) (offset : Int) :
    Except MapError (List MapEntry) :=
  if offset ≤ 0 then
    .error (.rangeErr "Offset parameter should be greater than zero.")
  else
    .ok (tokens.map (mkMapping file offset))

/-! ## Transpile dispatcher -/

/-- Value returned by transpile: the data field and an optional map. -/
structure TResult where
  data : List Char
  map : Option (List MapEntry)
deriving Repr, DecidableEq

/-- Behavior of a resolved external plugin when invoked: it either
returns a result or raises with some message. -/
inductive PluginOutcome where
  | success (r : TResult)
  | raise (msg : String)
deriving Repr, DecidableEq

/-- Errors escaping transpile: the not-found Error built by the error
handler of the langs object; the TypeError produced when that handler
is invoked without an argument and reads the message property of
undefined (which happens exactly for the lang string error, since the
langs object owns a key of that name, so the short-circuit picks the
handler itself and the dispatcher calls it with no argument); and the
TypeError produced when the bracket lookup finds an inherited
Object.prototype member and invoking it (or invoking the non-function
value it yields) throws. None of these TypeError texts contains a
plugin name: they speak about undefined, a non-object receiver or a
non-callable expression. -/
inductive TranspileError where
  | pluginNotFound (msg : String)
  | undefinedMessage
  | protoTypeError (member : String)
deriving Repr, DecidableEq

/-- Value returned by the transpile dispatch: the object built by an
own handler of the langs object or passed through from a plugin, or
the raw JavaScript value produced when the bracket lookup finds an
inherited Object.prototype member and the dispatcher invokes it. -/
inductive TValue where
  | res (r : TResult)
  | protoString (s : String)
  | protoObject
  | protoBool (b : Bool)
deriving Repr, DecidableEq

/-- Behavior of the dispatch when lang names an inherited member of
Object.prototype. The object literal langs inherits these members, so
the bracket access langs[lang] finds a truthy value, the short-circuit
selects it and the dispatcher calls it with no argument; the file runs
under use strict, so the this value of that call is undefined. Under
those conditions toString returns the string [object Undefined],
constructor (the Object function) returns a fresh empty object,
isPrototypeOf returns false because its absent argument is not an
object, and every other member throws a TypeError (the four accessor
definition helpers, hasOwnProperty, propertyIsEnumerable and valueOf
reject an undefined receiver, toLocaleString reads toString from an
undefined receiver, and the value of the inherited accessor
underscore-proto-underscore is the prototype object, which is not
callable). Every lang outside this table and the own keys falls
through to the error handler. -/
def protoMemberInvoke : String → Option (Except TranspileError TValue)
  | "toString" => some (.ok (.protoString "[object Undefined]"))
  | "constructor" => some (.ok .protoObject)
  | "isPrototypeOf" => some (.ok (.protoBool false))
  | "toLocaleString" => some (.error (.protoTypeError "toLocaleString"))
  | "valueOf" => some (.error (.protoTypeError "valueOf"))
  | "hasOwnProperty" => some (.error (.protoTypeError "hasOwnProperty"))
  | "propertyIsEnumerable" => some (.error (.protoTypeError "propertyIsEnumerable"))
  | "__defineGetter__" => some (.error (.protoTypeError "__defineGetter__"))
  | "__defineSetter__" => some (.error (.protoTypeError "__defineSetter__"))
  | "__lookupGetter__" => some (.error (.protoTypeError "__lookupGetter__"))
  | "__lookupSetter__" => some (.error (.protoTypeError "__lookupSetter__"))
  | "__proto__" => some (.error (.protoTypeError "__proto__"))
  | _ => none

/-- os.EOL on the POSIX systems the test suite runs on. -/
def eolStr : String := "\n"

/-- The catch branch of transpile: the bracket lookup on the langs
object with the caught error message errMsg. Translated from the langs
object and the expression selecting from it in src/vuegister.js: the
own keys js, html and error are tried first (shadowing the prototype),
then the inherited Object.prototype members, and only a lang matching
neither reaches the error handler. The js branch consults generateMap
only under the guard maps and offset positive, so the range error of
generateMap is unreachable there. -/
def transpileFallback (lang : String) (text : List Char) (maps : Bool)
    (offset : Int) (file : String) (tokens : List Token) (errMsg : String) :
    Except TranspileError TValue :=
  if lang = "js" then
    .ok (.res ⟨text,
      if maps ∧ 0 < offset then (generateMap tokens file offset).toOption else none⟩)
  else if lang = "html" then
    .ok (.res ⟨text, none⟩)
  else if lang = "error" then
    .error .undefinedMessage
  else
    match protoMemberInvoke lang with
    | some out => out
    | none =>
      .error (.pluginNotFound
        ("Plugin vuegister-plugin-" ++ lang ++ " not found." ++ eolStr ++ errMsg))

/-- transpile from src/vuegister.js. The try block covers both the
resolution and the invocation of the plugin, so plugin here is the
observable behavior of that block: none when require fails with
message requireErrMsg, some outcome when the plugin resolves. A
successful plugin return is passed through as is; any caught error
falls into the langs dispatch. -/
def transpile (lang : String) (text : List Char) (maps : Bool) (offset : Int)
    (file : String) (tokens : List Token) (plugin : Option PluginOutcome)
    (requireErrMsg : String) : Except TranspileError TValue :=
  match plugin with
  | some (.success r) => .ok (.res r)
  | some (.raise m) => transpileFallback lang text maps offset file tokens m
  | none => transpileFallback lang text maps offset file tokens requireErrMsg

/-! ## Specification-side predicates -/

/-- Whether a transpile error is one whose message contains the
conventional plugin name: only the not-found Error carries a message
naming a plugin, and it mentions the name when the name occurs in it
as a contiguous substring. The TypeError texts (about reading a
property of undefined, an undefined receiver or a non-callable
expression) never mention a plugin name. -/
def errMentions (e : TranspileError) (nm : String) : Prop :=
  match e with
  | .pluginNotFound m => ∃ pre post : List Char, m.data = pre ++ (nm.data ++ post)
  | .undefinedMessage => False
  | .protoTypeError _ => False

/-- Whether a dynamic value is a string (typeof v is string). -/
def isStr : JsVal → Bool
  | .vstr _ => true
  | _ => false

/-- Whether a dynamic value is an array (Array.isArray). -/
def isArr : JsVal → Bool
  | .varr _ => true
  | _ => false

/-- The offset invariant of one extracted section: its text is a
substring of the buffer starting at some byte position a, and the
offset equals zero when the attributes of the section carry src,
otherwise the number of line breaks strictly before a; when the text
is non-empty its first character is the buffer character at a. -/
def SectProp (buf : List Char) (s : SectObj) : Prop :=
  ∃ a b, a ≤ b ∧ s.text = jsSubstring buf a b ∧
    s.offset = (if hasAttr s.attrs "src" then 0 else breaksBefore buf a) ∧
    (s.text ≠ [] → s.text.head? = buf.get? a)

/-- Invariant carried through the extract loop: every pushed reference
is a valid heap id whose object satisfies the section invariant, and
the current section reference is a valid heap id. -/
def StInv (buf : List Char) (st : ExtractState) : Prop :=
  (∀ id ∈ st.pushed, id < st.heap.length ∧ SectProp buf (getAt st.heap id)) ∧
  (∀ id, st.cur = some id → id < st.heap.length)

/-- Ascending order on tokens by start position. -/
def tokLt (a b : Token) : Prop :=
  a.start.line < b.start.line ∨
    (a.start.line = b.start.line ∧ a.start.column < b.start.column)

/-- Ascending order on map entries by generated position. -/
def entryLt (a b : MapEntry) : Prop :=
  a.generatedLine < b.generatedLine ∨
    (a.generatedLine = b.generatedLine ∧ a.generatedColumn < b.generatedColumn)

end Vuegister

namespace Vuegister

/-! ## Lemmas about Location -/

theorem getLineFrom_newlineIndexesFrom (cs : List Char) :
    ∀ (s x : Nat),
      getLineFrom (newlineIndexesFrom cs s) x = (cs.take (x - s)).count '\n' := by
  induction cs with
  | nil => intro s x; simp [newlineIndexesFrom, getLineFrom]
  | cons c cs ih =>
    intro s x
    by_cases hc : c = '\n'
    · subst hc
      simp only [newlineIndexesFrom, if_pos rfl, getLineFrom]
      by_cases hx : x ≤ s
      · have : x - s = 0 := Nat.sub_eq_zero_of_le hx
        simp [hx, this]
      · have hxs : x - s = (x - (s + 1)) + 1 := by omega
        simp only [if_neg hx, hxs, List.take_succ_cons, List.count_cons]
        rw [ih (s + 1) x]
        simp
    · simp only [newlineIndexesFrom, if_neg hc]
      rw [ih (s + 1) x]
      by_cases hx : x ≤ s
      · have h0 : x - s = 0 := Nat.sub_eq_zero_of_le hx
        have h1 : x - (s + 1) = 0 := by omega
        simp [h0, h1]
      · have hxs : x - s = (x - (s + 1)) + 1 := by omega
        simp only [hxs, List.take_succ_cons, List.count_cons]
        simp [hc]

theorem getLineFrom_locIndexes (buf : List Char) (x : Nat) :
    getLineFrom (locIndexes buf) x = breaksBefore buf x := by
  unfold locIndexes breaksBefore
  rw [getLineFrom_newlineIndexesFrom buf 0 x, Nat.sub_zero]

theorem newlineIndexesFrom_bounds (cs : List Char) :
    ∀ s : Nat, ∀ j ∈ newlineIndexesFrom cs s, s ≤ j := by
  induction cs with
  | nil => intro s j hj; simp [newlineIndexesFrom] at hj
  | cons c cs ih =>
    intro s j hj
    by_cases hc : c = '\n'
    · subst hc
      simp only [newlineIndexesFrom, if_pos rfl] at hj
      rcases List.mem_cons.mp hj with heq | hmem
      · omega
      · have := ih (s + 1) j hmem; omega
    · simp only [newlineIndexesFrom, if_neg hc] at hj
      have := ih (s + 1) j hj; omega

theorem newlineIndexesFrom_pairwise (cs : List Char) :
    ∀ s : Nat, List.Pairwise (· < ·) (newlineIndexesFrom cs s) := by
  induction cs with
  | nil => intro s; simp [newlineIndexesFrom]
  | cons c cs ih =>
    intro s
    by_cases hc : c = '\n'
    · subst hc
      simp only [newlineIndexesFrom, if_pos rfl]
      refine List.pairwise_cons.mpr ⟨?_, ih (s + 1)⟩
      intro j hj
      have := newlineIndexesFrom_bounds cs (s + 1) j hj
      omega
    · simp only [newlineIndexesFrom, if_neg hc]
      exact ih (s + 1)

/-! ## Lemmas about jsSubstring -/

theorem jsSubstring_of_le (s : List Char) {a b : Nat} (hab : a ≤ b) :
    jsSubstring s a b =
      (s.drop (min a s.length)).take (min b s.length - min a s.length) := by
  unfold jsSubstring
  have h1 : min a s.length ≤ min b s.length := by omega
  simp only [Nat.min_eq_left h1, Nat.max_eq_right h1]

theorem head?_drop_eq_get? (s : List Char) :
    ∀ a : Nat, (s.drop a).head? = s.get? a := by
  induction s with
  | nil => intro a; simp
  | cons x xs ih =>
    intro a
    cases a with
    | zero => simp
    | succ a =>
      simp only [List.drop_succ_cons, List.get?_cons_succ]
      exact ih a

theorem jsSubstring_head (s : List Char) {a b : Nat} (hab : a ≤ b)
    (hne : jsSubstring s a b ≠ []) :
    (jsSubstring s a b).head? = s.get? a := by
  rw [jsSubstring_of_le s hab] at hne ⊢
  have halen : a < s.length := by
    by_contra hge
    push_neg at hge
    have h1 : min a s.length = s.length := by omega
    rw [h1] at hne
    simp at hne
  have h2 : min a s.length = a := by omega
  rw [h2] at hne ⊢
  have h3 : (s.drop a).take (min b s.length - a) ≠ [] := hne
  have h4 : min b s.length - a ≠ 0 := by
    intro h0; rw [h0] at h3; simp at h3
  cases hk : min b s.length - a with
  | zero => exact absurd hk h4
  | succ k =>
    cases hd : s.drop a with
    | nil =>
      have : s.length ≤ a := by
        have := List.drop_eq_nil_iff.mp hd
        omega
      omega
    | cons y ys =>
      have hh : (s.drop a).head? = some y := by rw [hd]; rfl
      simp only [List.take_succ_cons, List.head?_cons]
      rw [← hh, head?_drop_eq_get? s a]

/-! ## Lemmas about the little section heap -/

theorem length_setAt (y : SectObj) :
    ∀ (l : List SectObj) (n : Nat), (setAt l n y).length = l.length := by
  intro l
  induction l with
  | nil => intro n; simp [setAt]
  | cons x xs ih =>
    intro n
    cases n with
    | zero => simp [setAt]
    | succ n => simp [setAt, ih n]

theorem getAt_setAt_self (y : SectObj) :
    ∀ (l : List SectObj) (n : Nat), n < l.length → getAt (setAt l n y) n = y := by
  intro l
  induction l with
  | nil => intro n h; simp at h
  | cons x xs ih =>
    intro n h
    cases n with
    | zero => simp [setAt, getAt]
    | succ n =>
      simp only [setAt, getAt]
      exact ih n (by simpa using h)

theorem getAt_setAt_ne (y : SectObj) :
    ∀ (l : List SectObj) (n m : Nat), m ≠ n → getAt (setAt l n y) m = getAt l m := by
  intro l
  induction l with
  | nil => intro n m _; cases n <;> simp [setAt]
  | cons x xs ih =>
    intro n m hne
    cases n with
    | zero =>
      cases m with
      | zero => exact absurd rfl hne
      | succ m => simp [setAt, getAt]
    | succ n =>
      cases m with
      | zero => simp [setAt, getAt]
      | succ m =>
        simp only [setAt, getAt]
        exact ih n m (by omega)

theorem getAt_append_lt (l l2 : List SectObj) :
    ∀ n : Nat, n < l.length → getAt (l ++ l2) n = getAt l n := by
  induction l with
  | nil => intro n h; simp at h
  | cons x xs ih =>
    intro n h
    cases n with
    | zero => simp [getAt]
    | succ n =>
      simp only [List.cons_append, getAt]
      exact ih n (by simpa using h)

/-! ## The extract loop invariant -/

theorem step_inv (buf : List Char) (tags : List JsVal) (st st1 : ExtractState)
    (e : PEvent) (hstep : step buf tags st e = .ok st1) (hinv : StInv buf st)
    (hpos : st.sectStart ≤ eventPos e) :
    StInv buf st1 ∧ (st1.sectStart = st.sectStart ∨ st1.sectStart = eventPos e + 1) := by
  cases e with
  | openTag t attrs endIdx =>
    simp only [step] at hstep
    split at hstep
    · split at hstep
      · cases hstep
        exact ⟨hinv, Or.inl rfl⟩
      · cases hstep
        refine ⟨⟨?_, ?_⟩, Or.inr rfl⟩
        · intro id hid
          obtain ⟨h1, h2⟩ := hinv.1 id hid
          refine ⟨?_, ?_⟩
          · simp only [List.length_append, List.length_cons, List.length_nil]
            omega
          · rw [getAt_append_lt st.heap _ id h1]
            exact h2
        · intro id hcur
          simp only [Option.some.injEq] at hcur
          subst hcur
          simp only [List.length_append, List.length_cons, List.length_nil]
          omega
    · cases hstep
      exact ⟨hinv, Or.inl rfl⟩
  | closeTag t startIdx =>
    simp only [step] at hstep
    split at hstep
    · split at hstep
      · cases hstep
        exact ⟨hinv, Or.inl rfl⟩
      · split at hstep
        · cases hstep
        · rename_i id hcur
          cases hstep
          have hid : id < st.heap.length := hinv.2 id hcur
          have hss : st.sectStart ≤ startIdx := hpos
          refine ⟨⟨?_, ?_⟩, Or.inl rfl⟩
          · intro id1 hid1
            dsimp only at hid1 ⊢
            rw [List.mem_append] at hid1
            by_cases heq : id1 = id
            · subst heq
              rw [length_setAt, getAt_setAt_self _ _ _ hid]
              refine ⟨hid, st.sectStart, startIdx, hss, rfl, ?_, ?_⟩
              · dsimp only
                rw [getLineFrom_locIndexes]
              · intro hne
                exact jsSubstring_head buf hss hne
            · rcases hid1 with hmem | hsing
              · obtain ⟨h1, h2⟩ := hinv.1 id1 hmem
                rw [length_setAt, getAt_setAt_ne _ _ _ _ heq]
                exact ⟨h1, h2⟩
              · simp only [List.mem_singleton] at hsing
                exact absurd hsing heq
          · intro id1 hcur1
            dsimp only at hcur1 ⊢
            rw [hcur] at hcur1
            simp only [Option.some.injEq] at hcur1
            subst hcur1
            rw [length_setAt]
            exact hid
    · cases hstep
      exact ⟨hinv, Or.inl rfl⟩

theorem runLoop_inv (buf : List Char) (tags : List JsVal) :
    ∀ (events : List PEvent) (st st' : ExtractState),
      List.Pairwise (· < ·) (events.map eventPos) →
      (∀ e ∈ events, st.sectStart ≤ eventPos e) →
      StInv buf st →
      runLoop buf tags st events = .ok st' →
      StInv buf st' := by
  intro events
  induction events with
  | nil =>
    intro st st' _ _ hinv hrun
    simp only [runLoop] at hrun
    cases hrun
    exact hinv
  | cons e rest ih =>
    intro st st' hpw hpos hinv hrun
    simp only [runLoop] at hrun
    cases hstep : step buf tags st e with
    | error err => rw [hstep] at hrun; cases hrun
    | ok st1 =>
      rw [hstep] at hrun
      have hpe : st.sectStart ≤ eventPos e := hpos e (List.mem_cons_self e rest)
      obtain ⟨hinv1, hss⟩ := step_inv buf tags st st1 e hstep hinv hpe
      have hpw1 : List.Pairwise (· < ·) (rest.map eventPos) := by
        rw [List.map_cons] at hpw
        exact (List.pairwise_cons.mp hpw).2
      have hlt : ∀ q ∈ rest, eventPos e < eventPos q := by
        intro q hq
        rw [List.map_cons] at hpw
        exact (List.pairwise_cons.mp hpw).1 (eventPos q) (List.mem_map_of_mem eventPos hq)
      have hpos1 : ∀ q ∈ rest, st1.sectStart ≤ eventPos q := by
        intro q hq
        rcases hss with h | h
        · rw [h]; exact le_trans hpe (le_of_lt (hlt q hq))
        · rw [h]; exact Nat.succ_le_of_lt (hlt q hq)
      exact ih st1 st' hpw1 hpos1 hinv1 hrun

/-- Every section list returned by a run of the extract callbacks over
a position-ordered event stream consists of sections satisfying the
offset invariant. -/
theorem runExtract_sectProp (buf : List Char) (tags : List JsVal)
    (events : List PEvent) (sections : List SectObj)
    (hpw : List.Pairwise (· < ·) (events.map eventPos))
    (hrun : runExtract buf tags events = .ok sections) :
    ∀ s ∈ sections, SectProp buf s := by
  unfold runExtract at hrun
  cases hloop : runLoop buf tags initState events with
  | error err => rw [hloop] at hrun; cases hrun
  | ok st' =>
    rw [hloop] at hrun
    simp only [Except.map] at hrun
    cases hrun
    have hinv : StInv buf st' := by
      refine runLoop_inv buf tags events initState st' hpw ?_ ?_ hloop
      · intro e _; exact Nat.zero_le _
      · constructor
        · intro id hid; simp [initState] at hid
        · intro id hcur; simp [initState] at hcur
    intro s hs
    rw [List.mem_map] at hs
    obtain ⟨id, hid, hsec⟩ := hs
    rcases hinv.1 id hid with ⟨_, hprop⟩
    rw [← hsec]
    exact hprop

/-! ## Stepwise computation lemmas for concrete event streams -/

theorem runLoop_append (buf : List Char) (tags : List JsVal) :
    ∀ (l1 l2 : List PEvent) (st st1 : ExtractState),
      runLoop buf tags st l1 = .ok st1 →
      runLoop buf tags st (l1 ++ l2) = runLoop buf tags st1 l2 := by
  intro l1
  induction l1 with
  | nil =>
    intro l2 st st1 h
    simp only [runLoop] at h
    cases h
    simp
  | cons e rest ih =>
    intro l2 st st1 h
    simp only [runLoop] at h
    simp only [List.cons_append, runLoop]
    cases hstep : step buf tags st e with
    | error err => rw [hstep] at h; cases h
    | ok st2 =>
      rw [hstep] at h
      exact ih l2 st2 st1 h

/-- Processing further opening tags of an already found tag only
increments its counter. -/
theorem runLoop_opens (buf : List Char) (tags : List JsVal) (t : String)
    (hct : tagsContains tags t = true) :
    ∀ (opens : List PEvent),
      (∀ ev ∈ opens, ∃ a i, ev = PEvent.openTag t a i) →
      ∀ (c : Int) (H : List SectObj) (cu : Option Nat) (ss : Nat) (p : List Nat),
        runLoop buf tags ⟨[t], [(t, some c)], H, cu, ss, p⟩ opens =
          .ok ⟨[t], [(t, some (c + (opens.length : Int)))], H, cu, ss, p⟩ := by
  intro opens
  induction opens with
  | nil =>
    intro _ c H cu ss p
    simp [runLoop]
  | cons e rest ih =>
    intro hall c H cu ss p
    obtain ⟨a, i, rfl⟩ := hall e (List.mem_cons_self _ _)
    have hrest : ∀ ev ∈ rest, ∃ a i, ev = PEvent.openTag t a i :=
      fun ev hev => hall ev (List.mem_cons_of_mem _ hev)
    simp only [runLoop, step, hct, if_true]
    have hfind : List.contains [t] t = true := by simp
    simp only [hfind, if_true, counterGet, if_pos rfl, jsInc, counterSet]
    have harith : c + ((PEvent.openTag t a i :: rest).length : Int) =
        (c + 1) + (rest.length : Int) := by
      simp only [List.length_cons]
      push_cast
      ring
    rw [harith]
    exact ih hrest (c + 1) H cu ss p

/-- Processing closing tags while the counter stays positive only
decrements it and emits nothing. -/
theorem runLoop_closes (buf : List Char) (tags : List JsVal) (t : String)
    (hct : tagsContains tags t = true) :
    ∀ (closes : List PEvent),
      (∀ ev ∈ closes, ∃ i, ev = PEvent.closeTag t i) →
      ∀ (c : Int) (H : List SectObj) (cu : Option Nat) (ss : Nat) (p : List Nat),
        (∀ m : Nat, 1 ≤ m → m ≤ closes.length → c - (m : Int) ≠ 0) →
        runLoop buf tags ⟨[t], [(t, some c)], H, cu, ss, p⟩ closes =
          .ok ⟨[t], [(t, some (c - (closes.length : Int)))], H, cu, ss, p⟩ := by
  intro closes
  induction closes with
  | nil =>
    intro _ c H cu ss p _
    simp [runLoop]
  | cons e rest ih =>
    intro hall c H cu ss p hc
    obtain ⟨i, rfl⟩ := hall e (List.mem_cons_self _ _)
    have hrest : ∀ ev ∈ rest, ∃ i, ev = PEvent.closeTag t i :=
      fun ev hev => hall ev (List.mem_cons_of_mem _ hev)
    have hne : c - 1 ≠ 0 := by
      have := hc 1 (le_refl 1) (by simp only [List.length_cons]; omega)
      simpa using this
    simp only [runLoop, step, hct, if_true, counterGet, if_pos rfl, jsDec, counterSet]
    have htr : jsTruthy (some (c - 1)) = true := by
      simp [jsTruthy, hne]
    simp only [htr, if_true]
    have hc1 : ∀ m : Nat, 1 ≤ m → m ≤ rest.length → (c - 1) - (m : Int) ≠ 0 := by
      intro m h1 h2
      have := hc (m + 1) (by omega) (by simp only [List.length_cons]; omega)
      intro h0
      apply this
      push_cast at h0 ⊢
      omega
    have harith : c - ((PEvent.closeTag t i :: rest).length : Int) =
        (c - 1) - (rest.length : Int) := by
      simp only [List.length_cons]
      push_cast
      ring
    rw [harith]
    exact ih hrest (c - 1) H cu ss p hc1

/-! ## Claim C3: nesting is depth balanced -/

/-- C3: a document in which a tracked tag name is nested inside itself
N times (one outer opening tag, then N inner opening tags of the same
name, then N inner closing tags, then the outer closing tag) yields
exactly one Section for that tag name, whose text spans from
immediately after the outer opening tag to immediately before the
outer closing tag, with the inner tags left as literal buffer content;
only the closing tag that returns the per-tag depth counter to zero
triggers the emission. -/
theorem extract_nested_emits_single_section
    (buf : List Char) (tags : List JsVal) (t : String)
    (attrs : List (String × String)) (e0 sf : Nat)
    (opens closes : List PEvent)
    (hct : tagsContains tags t = true)
    (hop : ∀ ev ∈ opens, ∃ a i, ev = PEvent.openTag t a i)
    (hcl : ∀ ev ∈ closes, ∃ i, ev = PEvent.closeTag t i)
    (hlen : opens.length = closes.length) :
    runExtract buf tags
        (PEvent.openTag t attrs e0 :: (opens ++ (closes ++ [PEvent.closeTag t sf]))) =
      .ok [⟨t, attrs, jsSubstring buf (e0 + 1) sf,
            if hasAttr attrs "src" then 0
            else getLineFrom (locIndexes buf) (e0 + 1)⟩] := by
  have h1 : step buf tags initState (PEvent.openTag t attrs e0) =
      .ok ⟨[t], [(t, some 1)], [⟨t, attrs, [], 0⟩], some 0, e0 + 1, []⟩ := by
    simp [step, initState, hct, counterSet]
  have h2 := runLoop_opens buf tags t hct opens hop 1
      [⟨t, attrs, [], 0⟩] (some 0) (e0 + 1) []
  have hcond : ∀ m : Nat, 1 ≤ m → m ≤ closes.length →
      (1 + (opens.length : Int)) - (m : Int) ≠ 0 := by
    intro m hm1 hm2
    omega
  have h3 := runLoop_closes buf tags t hct closes hcl (1 + (opens.length : Int))
      [⟨t, attrs, [], 0⟩] (some 0) (e0 + 1) [] hcond
  have harr : (1 + (opens.length : Int)) - (closes.length : Int) = 1 := by
    rw [hlen]
    ring
  rw [harr] at h3
  have h4 : runLoop buf tags
      ⟨[t], [(t, some 1)], [⟨t, attrs, [], 0⟩], some 0, e0 + 1, []⟩
      [PEvent.closeTag t sf] =
      .ok ⟨[t], [(t, some 0)],
           [⟨t, attrs, jsSubstring buf (e0 + 1) sf,
             if hasAttr attrs "src" then 0
             else getLineFrom (locIndexes buf) (e0 + 1)⟩],
           some 0, e0 + 1, [0]⟩ := by
    simp [runLoop, step, hct, counterGet, jsDec, jsTruthy, counterSet, getAt, setAt]
  have hrun : runLoop buf tags initState
      (PEvent.openTag t attrs e0 :: (opens ++ (closes ++ [PEvent.closeTag t sf]))) =
      .ok ⟨[t], [(t, some 0)],
           [⟨t, attrs, jsSubstring buf (e0 + 1) sf,
             if hasAttr attrs "src" then 0
             else getLineFrom (locIndexes buf) (e0 + 1)⟩],
           some 0, e0 + 1, [0]⟩ := by
    have hstep0 : runLoop buf tags initState
        (PEvent.openTag t attrs e0 :: (opens ++ (closes ++ [PEvent.closeTag t sf]))) =
        runLoop buf tags ⟨[t], [(t, some 1)], [⟨t, attrs, [], 0⟩], some 0, e0 + 1, []⟩
          (opens ++ (closes ++ [PEvent.closeTag t sf])) := by
      simp only [runLoop, h1]
    rw [hstep0,
        runLoop_append buf tags opens (closes ++ [PEvent.closeTag t sf]) _ _ h2,
        runLoop_append buf tags closes [PEvent.closeTag t sf] _ _ h3]
    exact h4
  unfold runExtract
  rw [hrun]
  simp [Except.map, getAt]

/-! ## Claim C4: reopening a tag name after emission -/

/-- C4 amended behavior: after a section has been emitted, the found
flag of its tag name is never reset, so a later same-named opening tag
only increments the counter and does not start a fresh section; the
later closing tag then mutates and pushes the very same section
object, whose text now spans from the content start of the first
opening tag to the later closing tag and whose attributes are still
those of the first opening tag; the returned array holds that one
object twice. -/
theorem extract_reopen_rebuilds_same_object
    (buf : List Char) (tags : List JsVal) (t : String)
    (a0 a1 : List (String × String)) (e0 s0 e1 s1 : Nat)
    (hct : tagsContains tags t = true) :
    runExtract buf tags
        [PEvent.openTag t a0 e0, PEvent.closeTag t s0,
         PEvent.openTag t a1 e1, PEvent.closeTag t s1] =
      .ok [⟨t, a0, jsSubstring buf (e0 + 1) s1,
            if hasAttr a0 "src" then 0 else getLineFrom (locIndexes buf) (e0 + 1)⟩,
           ⟨t, a0, jsSubstring buf (e0 + 1) s1,
            if hasAttr a0 "src" then 0 else getLineFrom (locIndexes buf) (e0 + 1)⟩] := by
  simp [runExtract, runLoop, step, initState, hct, counterGet, counterSet,
        jsInc, jsDec, jsTruthy, getAt, setAt, Except.map]

/-! ## Claim C1: offset correctness -/

/-- C1: for every well-formed document, given as a position-ordered
parser event stream over the buffer, and every section emitted by
extract, the section offset equals the number of line breaks strictly
before the first character of its inner text in the buffer, unless the
attributes of the opening tag that created the section carry src, in
which case the offset is exactly 0. -/
theorem extract_offset_correct (s : String) (xs : List JsVal)
    (events : List PEvent) (sections : List SectObj)
    (hpw : List.Pairwise (· < ·) (events.map eventPos))
    (hrun : extract (.vstr s) (.varr xs) events = .ok sections) :
    ∀ sec ∈ sections, SectProp s.data sec :=
  runExtract_sectProp s.data xs events sections hpw hrun

/-- Witness for C1 at a concrete document. -/
theorem extract_offset_correct_witness :
    SectProp "<a>x</a>".data ⟨"a", [], ['x'], 0⟩ := by
  have h := extract_offset_correct "<a>x</a>" [JsVal.vstr "a"]
      [PEvent.openTag "a" [] 2, PEvent.closeTag "a" 4]
      [⟨"a", [], ['x'], 0⟩] (by decide) (by rfl)
  exact h _ (List.mem_singleton.mpr rfl)

/-! ## Claim C2: one mapping entry per token -/

/-- C2: for every token list produced by tokenizing the content, file
id and positive offset, generateMap yields exactly one mapping entry
per token, in scan order, with original line equal to generated line
plus offset, original column equal to generated column and source
equal to the file id; when the tokens ascend by start position the
entries ascend by generated position. -/
theorem generateMap_per_token_mapping (tokens : List Token) (file : String)
    (offset : Int) (hoff : 0 < offset) :
    generateMap tokens file offset = .ok (tokens.map (mkMapping file offset)) ∧
    (tokens.map (mkMapping file offset)).length = tokens.length ∧
    (∀ i, ∀ h : i < tokens.length,
        (tokens.map (mkMapping file offset)).get? i =
          some (mkMapping file offset (tokens.get ⟨i, h⟩))) ∧
    (∀ e ∈ tokens.map (mkMapping file offset),
        e.originalLine = (e.generatedLine : Int) + offset ∧
        e.originalColumn = e.generatedColumn ∧ e.source = file) ∧
    (List.Pairwise tokLt tokens →
      List.Pairwise entryLt (tokens.map (mkMapping file offset))) := by
  refine ⟨?_, ?_, ?_, ?_, ?_⟩
  · unfold generateMap
    rw [if_neg (by omega)]
  · exact List.length_map tokens (mkMapping file offset)
  · intro i h
    rw [List.get?_map, List.get?_eq_get h]
    rfl
  · intro e he
    rw [List.mem_map] at he
    obtain ⟨tk, _, rfl⟩ := he
    exact ⟨rfl, rfl, rfl⟩
  · intro hp
    refine List.Pairwise.map (mkMapping file offset) ?_ hp
    intro a b hab
    simpa [entryLt, mkMapping, tokLt] using hab

/-- Witness for C2 at a fixed two-token script and the three offsets
named by the spec. -/
theorem generateMap_per_token_mapping_witness :
    generateMap [⟨⟨1, 0⟩, some "module"⟩, ⟨⟨2, 4⟩, none⟩] "foo.js" 1 =
      .ok [⟨"foo.js", 2, 0, 1, 0, some "module"⟩, ⟨"foo.js", 3, 4, 2, 4, none⟩] ∧
    generateMap [⟨⟨1, 0⟩, some "module"⟩, ⟨⟨2, 4⟩, none⟩] "foo.js" 5 =
      .ok [⟨"foo.js", 6, 0, 1, 0, some "module"⟩, ⟨"foo.js", 7, 4, 2, 4, none⟩] ∧
    generateMap [⟨⟨1, 0⟩, some "module"⟩, ⟨⟨2, 4⟩, none⟩] "foo.js" 9 =
      .ok [⟨"foo.js", 10, 0, 1, 0, some "module"⟩, ⟨"foo.js", 11, 4, 2, 4, none⟩] := by
  refine ⟨?_, ?_, ?_⟩
  · have h := (generateMap_per_token_mapping
        [⟨⟨1, 0⟩, some "module"⟩, ⟨⟨2, 4⟩, none⟩] "foo.js" 1 (by norm_num)).1
    rw [h]; rfl
  · have h := (generateMap_per_token_mapping
        [⟨⟨1, 0⟩, some "module"⟩, ⟨⟨2, 4⟩, none⟩] "foo.js" 5 (by norm_num)).1
    rw [h]; rfl
  · have h := (generateMap_per_token_mapping
        [⟨⟨1, 0⟩, some "module"⟩, ⟨⟨2, 4⟩, none⟩] "foo.js" 9 (by norm_num)).1
    rw [h]; rfl

/-- Witness for C3 on the nested-template document of Scenario D. -/
theorem extract_nested_emits_single_section_witness :
    runExtract "<template><template>\x7b\x7bx\x7d\x7d</template></template>".data
        [JsVal.vstr "template"]
        (PEvent.openTag "template" [] 9 ::
          ([PEvent.openTag "template" [] 19] ++
            ([PEvent.closeTag "template" 25] ++ [PEvent.closeTag "template" 36]))) =
      .ok [⟨"template", [], "<template>\x7b\x7bx\x7d\x7d</template>".data, 0⟩] := by
  have h := extract_nested_emits_single_section
      "<template><template>\x7b\x7bx\x7d\x7d</template></template>".data
      [JsVal.vstr "template"] "template" [] 9 36
      [PEvent.openTag "template" [] 19] [PEvent.closeTag "template" 25]
      (by decide)
      (by
        intro ev hev
        rw [List.mem_singleton] at hev
        subst hev
        exact ⟨[], 19, rfl⟩)
      (by
        intro ev hev
        rw [List.mem_singleton] at hev
        subst hev
        exact ⟨25, rfl⟩)
      (by decide)
  rw [h]
  rfl

/-- C4 counterexample: on a document with two separate same-named
sections the code does not start a fresh section at the second opening
tag; both returned entries are the same object whose text spans from
the first content start to the second closing tag, instead of the
claimed fresh section with its own start position (which would have
text y). -/
theorem extract_reopen_not_fresh_counterexample :
    extract (.vstr "<a>x</a><a>y</a>") (.varr [JsVal.vstr "a"])
        [PEvent.openTag "a" [] 2, PEvent.closeTag "a" 4,
         PEvent.openTag "a" [] 10, PEvent.closeTag "a" 12] =
      .ok [⟨"a", [], "x</a><a>y".data, 0⟩, ⟨"a", [], "x</a><a>y".data, 0⟩] ∧
    "x</a><a>y".data ≠ "y".data :=
  ⟨rfl, by decide⟩

/-- Witness for the amended C4 at the same concrete document. -/
theorem extract_reopen_rebuilds_same_object_witness :
    runExtract "<a>x</a><a>y</a>".data [JsVal.vstr "a"]
        [PEvent.openTag "a" [] 2, PEvent.closeTag "a" 4,
         PEvent.openTag "a" [] 10, PEvent.closeTag "a" 12] =
      .ok [⟨"a", [], "x</a><a>y".data, 0⟩, ⟨"a", [], "x</a><a>y".data, 0⟩] := by
  have h := extract_reopen_rebuilds_same_object "<a>x</a><a>y</a>".data
      [JsVal.vstr "a"] "a" [] [] 2 4 10 12 (by decide)
  rw [h]
  rfl

/-! ## Claim C5: Scenario A -/

/-- C5 counterexample: on the Scenario A input the section text is the
claimed one but the offset computed by the code is 0, not 1; indeed
the first character of the inner text is the line feed that ends line
one, and no line break lies strictly before it. -/
theorem extract_scenarioA_offset_counterexample :
    extract (.vstr "<script>\nmodule.exports = \x7b\x7d\n</script>")
        (.varr [JsVal.vstr "script"])
        [PEvent.openTag "script" [] 7, PEvent.closeTag "script" 29] =
      .ok [⟨"script", [], "\nmodule.exports = \x7b\x7d\n".data, 0⟩] ∧
    extract (.vstr "<script>\nmodule.exports = \x7b\x7d\n</script>")
        (.varr [JsVal.vstr "script"])
        [PEvent.openTag "script" [] 7, PEvent.closeTag "script" 29] ≠
      .ok [⟨"script", [], "\nmodule.exports = \x7b\x7d\n".data, 1⟩] := by
  refine ⟨rfl, ?_⟩
  intro h
  rw [show extract (.vstr "<script>\nmodule.exports = \x7b\x7d\n</script>")
      (.varr [JsVal.vstr "script"])
      [PEvent.openTag "script" [] 7, PEvent.closeTag "script" 29] =
      .ok [⟨"script", [], "\nmodule.exports = \x7b\x7d\n".data, 0⟩] from rfl] at h
  simp only [Except.ok.injEq, List.cons.injEq, SectObj.mk.injEq] at h
  omega

/-- C5 amended: extract on the Scenario A document yields exactly one
Section with tag script, text a line feed, the assignment line and a
line feed, and offset 0. -/
theorem extract_scenarioA_offset_zero :
    extract (.vstr "<script>\nmodule.exports = \x7b\x7d\n</script>")
        (.varr [JsVal.vstr "script"])
        [PEvent.openTag "script" [] 7, PEvent.closeTag "script" 29] =
      .ok [⟨"script", [], "\nmodule.exports = \x7b\x7d\n".data, 0⟩] := rfl

/-! ## Claim C6: the Line-Index query -/

/-- C6 counterexample: querying the byte offset of a line break itself
refutes the at-or-before reading: for the one-character buffer holding
a single line feed, getLine at offset 0 returns 0 while the count of
breaks at or before offset 0 is 1. -/
theorem getLine_at_break_counterexample :
    getLineFrom (locIndexes ['\n']) 0 = 0 ∧
    breaksAtOrBefore ['\n'] 0 = 1 ∧
    getLineFrom (locIndexes ['\n']) 0 ≠ breaksAtOrBefore ['\n'] 0 := by
  refine ⟨rfl, rfl, ?_⟩
  decide

/-- C6 amended: for every buffer and every byte offset, getLine
returns the count of line breaks strictly before that offset, which is
the 0-based number of the line containing it when a line feed is
counted as part of the line it terminates; the recorded break offsets
are strictly increasing. -/
theorem getLine_counts_breaks_strictly_before (buf : List Char) (x : Nat) :
    getLineFrom (locIndexes buf) x = breaksBefore buf x ∧
    List.Pairwise (· < ·) (locIndexes buf) :=
  ⟨getLineFrom_locIndexes buf x, newlineIndexesFrom_pairwise buf 0⟩

/-! ## Claim C7: dispatch without a resolvable plugin -/

/-- C7 counterexample: the claimed universal fails twice over. The
langs object owns a key named error, so for the lang string error the
short-circuit selects the handler itself and the dispatcher invokes it
with no argument; reading the message property of undefined raises a
TypeError that mentions no plugin name. And for the lang string
toString the bracket lookup finds the inherited Object.prototype
member, which under strict mode returns the string [object Undefined]
instead of raising anything at all. -/
theorem transpile_lang_error_counterexample :
    transpile "error" ['a'] false 1 "file.vue" [] none "Cannot find module" =
      .error .undefinedMessage ∧
    (∀ e : TranspileError,
      transpile "error" ['a'] false 1 "file.vue" [] none "Cannot find module" =
        .error e →
      ¬ errMentions e "vuegister-plugin-error") ∧
    transpile "toString" ['a'] false 1 "file.vue" [] none "Cannot find module" =
      .ok (.protoString "[object Undefined]") ∧
    (∀ e : TranspileError,
      transpile "toString" ['a'] false 1 "file.vue" [] none "Cannot find module" ≠
        .error e) := by
  refine ⟨rfl, ?_, rfl, ?_⟩
  · intro e he
    have h2 : (Except.error TranspileError.undefinedMessage :
        Except TranspileError TValue) = .error e := he
    have h1 : TranspileError.undefinedMessage = e := Except.error.inj h2
    rw [← h1]
    simp [errMentions]
  · intro e he
    have h2 : (Except.ok (TValue.protoString "[object Undefined]") :
        Except TranspileError TValue) = .error e := he
    cases h2

/-- C7 amended: with no resolvable plugin, the built-in default script
language returns the text unchanged with a map exactly when maps are
requested and the offset is positive; the built-in default markup
language returns the text unchanged with no map; the lang string error
raises the TypeError of reading a property of undefined; a lang naming
an inherited Object.prototype member invokes that member instead of
the error handler, returning its raw value or raising a TypeError, in
no case an error naming the plugin; every remaining lang raises an
Error whose message contains the conventional plugin name. -/
theorem transpile_no_plugin_fallback (lang : String) (text : List Char)
    (maps : Bool) (offset : Int) (file : String) (tokens : List Token)
    (requireErrMsg : String) :
    (lang = "js" →
      transpile lang text maps offset file tokens none requireErrMsg =
        .ok (.res ⟨text, if maps ∧ 0 < offset
                         then (generateMap tokens file offset).toOption else none⟩)) ∧
    (lang = "html" →
      transpile lang text maps offset file tokens none requireErrMsg =
        .ok (.res ⟨text, none⟩)) ∧
    (lang = "error" →
      transpile lang text maps offset file tokens none requireErrMsg =
        .error .undefinedMessage) ∧
    (∀ out, protoMemberInvoke lang = some out →
      transpile lang text maps offset file tokens none requireErrMsg = out ∧
      ∀ e : TranspileError, out = .error e →
        ¬ errMentions e ("vuegister-plugin-" ++ lang)) ∧
    (lang ≠ "js" → lang ≠ "html" → lang ≠ "error" →
      protoMemberInvoke lang = none →
      ∃ m, transpile lang text maps offset file tokens none requireErrMsg =
          .error (.pluginNotFound m) ∧
        errMentions (.pluginNotFound m) ("vuegister-plugin-" ++ lang)) := by
  refine ⟨?_, ?_, ?_, ?_, ?_⟩
  · intro h; subst h; rfl
  · intro h; subst h; rfl
  · intro h; subst h; rfl
  · intro out hout
    unfold protoMemberInvoke at hout
    split at hout <;>
      cases hout <;>
      exact ⟨rfl, fun e he => by cases he <;> simp [errMentions]⟩
  · intro h1 h2 h3 hnone
    refine ⟨"Plugin vuegister-plugin-" ++ lang ++ " not found." ++ eolStr ++
        requireErrMsg, ?_, ?_⟩
    · simp [transpile, transpileFallback, h1, h2, h3, hnone]
    · refine ⟨"Plugin ".data,
        (" not found." ++ eolStr ++ requireErrMsg).data, ?_⟩
      simp only [String.data_append]
      simp [List.append_assoc, List.cons_append, List.nil_append]

/-- Witness for the amended C7 at the lang coffee. -/
theorem transpile_no_plugin_fallback_witness :
    ∃ m, transpile "coffee" ['x'] false 1 "f.vue" [] none "Cannot find module" =
        .error (.pluginNotFound m) ∧
      errMentions (.pluginNotFound m) ("vuegister-plugin-" ++ "coffee") :=
  (transpile_no_plugin_fallback "coffee" ['x'] false 1 "f.vue" []
      "Cannot find module").2.2.2.2 (by decide) (by decide) (by decide) (by rfl)

/-! ## Claim C8: plugin exceptions -/

/-- C8 counterexample: the try block of transpile covers the plugin
invocation, so an exception raised inside a resolved plugin is caught
and, for the default script language, silently replaced by the
built-in passthrough: no error reaches the caller at all. -/
theorem transpile_plugin_raise_caught_counterexample :
    transpile "js" ['x'] false 1 "f.vue" []
        (some (.raise "plugin blew up")) "unused" = .ok (.res ⟨['x'], none⟩) ∧
    ∀ e : TranspileError,
      transpile "js" ['x'] false 1 "f.vue" []
          (some (.raise "plugin blew up")) "unused" ≠ .error e := by
  refine ⟨rfl, ?_⟩
  intro e he
  have h2 : (Except.ok (TValue.res ⟨['x'], none⟩) :
      Except TranspileError TValue) = .error e := he
  cases h2

/-- C8 amended: an exception raised inside a resolved plugin is caught
by the dispatcher and handled exactly like a failed resolution whose
caught error carries the plugin message: it is fed into the langs
dispatch, so for the default script and markup languages the plugin
failure is silently replaced by the built-in passthrough and the
plugin error never reaches the caller; only a normal plugin return
value is passed through to the caller without validation. -/
theorem transpile_plugin_raise_fallback (lang : String) (text : List Char)
    (maps : Bool) (offset : Int) (file : String) (tokens : List Token)
    (m requireErrMsg : String) (r : TResult) :
    transpile lang text maps offset file tokens (some (.raise m)) requireErrMsg =
      transpileFallback lang text maps offset file tokens m ∧
    transpile "js" text maps offset file tokens (some (.raise m)) requireErrMsg =
      .ok (.res ⟨text, if maps ∧ 0 < offset
                       then (generateMap tokens file offset).toOption else none⟩) ∧
    transpile "html" text maps offset file tokens (some (.raise m)) requireErrMsg =
      .ok (.res ⟨text, none⟩) ∧
    transpile lang text maps offset file tokens (some (.success r)) requireErrMsg =
      .ok (.res r) :=
  ⟨rfl, rfl, rfl, rfl⟩

/-! ## Claim C9: the range check of generateMap -/

/-- C9: generateMap raises its RangeError exactly when the offset is
zero or negative; a positive offset never produces that error and a
non-positive one always does, with no defaulting. -/
theorem generateMap_rangeError_iff (tokens : List Token) (file : String)
    (offset : Int) :
    (∃ m, generateMap tokens file offset = .error (.rangeErr m)) ↔ offset ≤ 0 := by
  unfold generateMap
  by_cases h : offset ≤ 0
  · rw [if_pos h]
    exact ⟨fun _ => h, fun _ => ⟨_, rfl⟩⟩
  · rw [if_neg h]
    constructor
    · intro hm
      obtain ⟨m, hm⟩ := hm
      cases hm
    · intro h0
      exact absurd h0 h

/-! ## Claim C10: input validation of extract -/

/-- C10 counterexample: an empty tag array is not rejected: extract
runs the parse and returns an empty section list without raising any
error, refuting the claim that a non-empty sequence of strings is
required. -/
theorem extract_empty_tags_accepted_counterexample :
    extract (.vstr "<a>x</a>") (.varr [])
        [PEvent.openTag "a" [] 2, PEvent.closeTag "a" 4] = .ok [] ∧
    ∀ err : ExtractErr,
      extract (.vstr "<a>x</a>") (.varr [])
          [PEvent.openTag "a" [] 2, PEvent.closeTag "a" 4] ≠ .error err := by
  refine ⟨rfl, ?_⟩
  intro err he
  have h2 : (Except.ok ([] : List SectObj) :
      Except ExtractErr (List SectObj)) = .error err := he
  cases h2

/-- C10 amended: if the buffer is not a string or the tag list is not
an array, extract raises a TypeError before any parsing, so the result
does not depend on the event stream and no sections are produced; an
empty tag array, or non-string elements, are accepted and simply never
match. -/
theorem extract_argument_checks (bufV tagsV : JsVal) (events : List PEvent)
    (h : isStr bufV = false ∨ isArr tagsV = false) :
    ∃ m, extract bufV tagsV events = .error (.typeErr m) ∧
      extract bufV tagsV events = extract bufV tagsV [] := by
  cases bufV with
  | vstr s =>
    cases tagsV with
    | varr xs => simp [isStr, isArr] at h
    | vstr s2 => exact ⟨"Second argument must be an array.", rfl, rfl⟩
    | vnum n => exact ⟨"Second argument must be an array.", rfl, rfl⟩
    | vbool b => exact ⟨"Second argument must be an array.", rfl, rfl⟩
    | vnull => exact ⟨"Second argument must be an array.", rfl, rfl⟩
    | vundef => exact ⟨"Second argument must be an array.", rfl, rfl⟩
  | varr xs => exact ⟨"First argument must be a string.", rfl, rfl⟩
  | vnum n => exact ⟨"First argument must be a string.", rfl, rfl⟩
  | vbool b => exact ⟨"First argument must be a string.", rfl, rfl⟩
  | vnull => exact ⟨"First argument must be a string.", rfl, rfl⟩
  | vundef => exact ⟨"First argument must be a string.", rfl, rfl⟩

/-- Witness for the amended C10 with a numeric buffer argument. -/
theorem extract_argument_checks_witness :
    ∃ m, extract (.vnum 0) (.varr []) [PEvent.closeTag "x" 0] =
        .error (.typeErr m) ∧
      extract (.vnum 0) (.varr []) [PEvent.closeTag "x" 0] =
        extract (.vnum 0) (.varr []) [] :=
  extract_argument_checks (.vnum 0) (.varr []) [PEvent.closeTag "x" 0]
    (Or.inl rfl)

end Vuegister
